import Mathlib

/-!
Verification development for the `phusic` phase-sequencing engine
(`src/phusic.py`, `src/config_manager.py`, `src/util.py`).

The Python sources are embedded shallowly: pure computations become Lean
functions over `Nat`/`Int`/`ℚ`/`List`, the mutable `Game` object becomes an
explicit state record transformed by step functions, and Python exceptions
become `Except` results.  Python `float` arithmetic is modelled exactly:
every float operation is an exact rational operation followed by
`roundD`, IEEE-754 binary64 round-to-nearest-even (the values arising here
are all positive and far from overflow/underflow, so this is the full
semantics of the Python operations involved).
-/

set_option maxRecDepth 100000

deriving instance DecidableEq for Except

namespace Phusic

/-- Python exceptions that the embedded code can raise. -/
inductive PyErr where
  | typeError (msg : String)
  | fileNotFound (msg : String)
  | valueError (msg : String)
  | stopIteration
  | indexError
  | zeroDivisionError
deriving DecidableEq

/-! ## IEEE-754 binary64 model

All floats appearing in the fade computation are positive and lie well
inside the normal range, so rounding a positive rational to the nearest
binary64 value (52 fraction bits, round half to even) is an exact model of
the Python arithmetic.  `roundD q` scales `q` into the significand range
`[2^52, 2^53)` by a power of two, rounds the significand half-to-even, and
scales back. -/

/-!
`Rat.add`, `Rat.mul`, `Rat.sub` and `Rat.div` are `@[irreducible]` in
Batteries, so computations built from them cannot be evaluated by `decide`.
The model therefore computes with the following exact rational operations,
built from the reducible primitives `Rat.divInt`, `mkRat`, `Rat.num`,
`Rat.den`.  Each is extensionally equal to the corresponding field
operation on `ℚ` (proved in `qAdd_eq` / `qSub_eq` / `qMul_eq` /
`ratDiv_eq` below), so theorems may freely be read with ordinary
rational arithmetic.
-/

/-- Exact rational addition via `Rat.divInt`. -/
def qAdd (a b : ℚ) : ℚ := Rat.divInt (a.num * (b.den : ℤ) + b.num * (a.den : ℤ)) ((a.den * b.den : ℕ) : ℤ)

/-- Exact rational subtraction via `Rat.divInt`. -/
def qSub (a b : ℚ) : ℚ := Rat.divInt (a.num * (b.den : ℤ) - b.num * (a.den : ℤ)) ((a.den * b.den : ℕ) : ℤ)

/-- Exact rational multiplication via `Rat.divInt`. -/
def qMul (a b : ℚ) : ℚ := Rat.divInt (a.num * b.num) ((a.den * b.den : ℕ) : ℤ)

/-- Exact division of rationals, computed with `Rat.divInt`. -/
def ratDiv (a b : ℚ) : ℚ := Rat.divInt (a.num * (b.den : ℤ)) (b.num * (a.den : ℤ))

/-- Binary search (on `fuel` for kernel-reducibility): the least
`s ∈ [lo, hi]` with `a ≤ n * 2 ^ s`, assuming one exists and the
predicate is monotone in `s`. -/
def leastShift (a n : ℕ) : ℕ → ℕ → ℕ → ℕ
  | 0, lo, _ => lo
  | fuel + 1, lo, hi =>
    if hi ≤ lo then lo
    else
      let mid := (lo + hi) / 2
      if a ≤ n * 2 ^ mid then leastShift a n fuel lo mid
      else leastShift a n fuel (mid + 1) hi

/-- Round a rational to the nearest IEEE-754 binary64 value
(round half to even).  Defined for the positive normal range used by the
program; `roundD 0 = 0`.  The significand `q * 2 ^ s` is scaled into
`[2^52, 2^53)` by the least adequate shift `s`, rounded half-to-even, and
scaled back. -/
def roundD (q : ℚ) : ℚ :=
  if q.num ≤ 0 then 0
  else
    let n : ℕ := q.num.toNat
    let d : ℕ := q.den
    let s : ℕ := leastShift (2 ^ 52 * d) n 9 0 256
    let hi : ℕ := n * 2 ^ s
    let fl : ℕ := hi / d
    let r2 : ℕ := 2 * (hi % d)
    let m : ℕ :=
      if r2 < d then fl
      else if d < r2 then fl + 1
      else if fl % 2 = 0 then fl else fl + 1
    mkRat (m : ℤ) (2 ^ s)

/-- Python float addition: exact sum, then binary64 rounding. -/
def fadd (a b : ℚ) : ℚ := roundD (qAdd a b)

/-- Python float subtraction (used only with nonnegative results). -/
def fsub (a b : ℚ) : ℚ := roundD (qSub a b)

/-- Python float multiplication. -/
def fmul (a b : ℚ) : ℚ := roundD (qMul a b)

/-- Python float (true) division: exact quotient, then binary64 rounding. -/
def fdiv (a b : ℚ) : ℚ := roundD (ratDiv a b)

/-- Python `int()` on a nonnegative float/rational: truncation toward zero. -/
def pyInt (q : ℚ) : ℤ := (q.num.toNat / q.den : ℕ)

/-! ## Fade constants (`src/phusic.py`, class `Game`)

```
FPS = 20
TOTAL_FADE_STEPS = 255
TRANSITION_DURATION_SECONDS = 5
FADE_STEPS = TOTAL_FADE_STEPS / float(TRANSITION_DURATION_SECONDS * FPS)
```
-/

def FPS : ℕ := 20

def TRANSITION_DURATION_SECONDS : ℕ := 5

def TOTAL_FADE_STEPS : ℚ := 255

/-- Python `FADE_STEPS = 255 / float(5 * 20)`: the binary64 value nearest 2.55. -/
def FADE_STEPS : ℚ :=
  fdiv TOTAL_FADE_STEPS ((TRANSITION_DURATION_SECONDS * FPS : ℕ) : ℚ)

/-- The value of `Game.fade_step` after `k` executions of
`self.fade_step += self.FADE_STEPS` starting from `0`, with binary64
rounding after each addition. -/
def fadeAfter : ℕ → ℚ
  | 0 => 0
  | k + 1 => fadd (fadeAfter k) FADE_STEPS


/-! ## Transition state machine (`src/phusic.py`, class `Game`)

The mutable `Game` object is embedded as an explicit state record.  pygame
`Sound` objects are embedded as per-phase `AudioState` entries (indexed by a
numeric phase identity), and every call the engine makes into the audio
layer is additionally recorded in an `events` log, so "stops X's audio" /
"starts playback of Y" are directly observable.  Linked-list nodes are kept
in an arena (`nodes : List Node`) and the cursors `curr_phase`/`next_phase`
are arena indices; nodes are never link-mutated by the engine, which matches
the source (only cursors are reassigned after construction). -/

/-- A `linked_list.Node`: a value slot (`None` allowed, cf. `Node(None)` at
src/phusic.py:77) and successor/predecessor references.
Modelled from the spec: the `linked_list` module itself is not part of the
four source files; §3/§9 of the spec describe nodes of a cyclic
doubly-linked structure, and `src/phusic.py` constructs bare nodes with
`Node(value)` carrying no links of their own. -/
structure Node where
  value : Option ℕ
  next : Option ℕ
  prev : Option ℕ
deriving DecidableEq

/-- The observable state of one phase's `pygame.mixer.Sound`. -/
structure AudioState where
  playing : Bool
  volume : ℚ
deriving DecidableEq

/-- One call into the audio layer, in program order. -/
inductive AudioEvent where
  | play (phase : ℕ)
  | stop (phase : ℕ)
  | setVolume (phase : ℕ) (volume : ℚ)
deriving DecidableEq

/-- The mutable state of `Game` that the claims are about. -/
structure GameState where
  nodes : List Node
  audio : List AudioState
  bgAlpha : List ℤ
  currPhase : ℕ
  nextPhase : ℕ
  isFading : Bool
  fadeStep : ℚ
  phaseStartedAt : ℚ
  events : List AudioEvent
deriving DecidableEq

/-- Dereference an arena index (total; engine code only uses live indices). -/
def getNode (g : GameState) (i : ℕ) : Node := g.nodes.getD i ⟨none, none, none⟩

/-- The audio state of phase `p`. -/
def getAudio (g : GameState) (p : ℕ) : AudioState := g.audio.getD p ⟨false, 1⟩

/-- Python `phase.sound.set_volume(v)`. -/
def setVol (g : GameState) (p : ℕ) (v : ℚ) : GameState :=
  { g with audio := g.audio.set p ⟨(getAudio g p).playing, v⟩,
           events := g.events ++ [.setVolume p v] }

/-- Python `phase.sound.play(-1)`. -/
def playSound (g : GameState) (p : ℕ) : GameState :=
  { g with audio := g.audio.set p ⟨true, (getAudio g p).volume⟩,
           events := g.events ++ [.play p] }

/-- Python `phase.sound.stop()`. -/
def stopSound (g : GameState) (p : ℕ) : GameState :=
  { g with audio := g.audio.set p ⟨false, (getAudio g p).volume⟩,
           events := g.events ++ [.stop p] }

/-- Python `surface.set_alpha(a)` on phase `p`'s background. -/
def setAlpha (g : GameState) (p : ℕ) (a : ℤ) : GameState :=
  { g with bgAlpha := g.bgAlpha.set p a }

/-- Python `Game._change_phase(phase_node)` (src/phusic.py:151-166): returns
unchanged while fading or on a `None` argument; otherwise enters Fading
with zero progress, sets the pending cursor, starts the target at volume
0, and resets the phase-start timestamp to `now`.  Accessing `.value` of a
valueless node would raise in Python, hence `Except`. -/
def change_phase (g : GameState) (phaseNode : Option ℕ) (now : ℚ) : Except String GameState :=
  if g.isFading then .ok g
  else
    match phaseNode with
    | none => .ok g
    | some nidx =>
      let g1 := { g with isFading := true, fadeStep := 0, nextPhase := nidx }
      match (getNode g1 nidx).value with
      | none => .error "AttributeError"
      | some p =>
        let g2 := playSound (setVol g1 p 0) p
        .ok { g2 with phaseStartedAt := now }

/-- Python `Game._set_phase(phase_node)` (src/phusic.py:168-186): the hard cut.
Stops the pending phase's audio if the pending node has a value, stops the
current phase's audio, leaves Fading with zero progress, starts the target
at volume 1, makes it current and resets the duration timer. -/
def set_phase (g : GameState) (phaseNode : Option ℕ) (now : ℚ) : Except String GameState :=
  match phaseNode with
  | none => .ok g
  | some nidx =>
    let g1 := match (getNode g g.nextPhase).value with
      | some np => stopSound g np
      | none => g
    match (getNode g1 g1.currPhase).value with
    | none => .error "AttributeError"
    | some cp =>
      let g2 := stopSound g1 cp
      let g3 := { g2 with isFading := false, fadeStep := 0 }
      match (getNode g3 nidx).value with
      | none => .error "AttributeError"
      | some p =>
        let g4 := playSound (setVol g3 p 1) p
        .ok { g4 with currPhase := nidx, phaseStartedAt := now }

/-- The state-relevant part of `Game._draw_phase` (src/phusic.py:188-212),
i.e. one scheduling tick.  While fading: compute
`alpha = int(fade_step * (255 / TOTAL_FADE_STEPS))`, set the pending
image's overlay alpha, set the pending volume to `alpha / 255.0` and the
current volume to `1.0 - that`, advance `fade_step` by `FADE_STEPS`, and
if `fade_step > TOTAL_FADE_STEPS` complete the transition (leave Fading,
stop the current phase's audio, promote the pending cursor).  The Idle
branch only draws. -/
def draw_phase (g : GameState) : Except String GameState :=
  if g.isFading then
    match (getNode g g.currPhase).value, (getNode g g.nextPhase).value with
    | some cp, some np =>
      let alpha : ℤ := pyInt (fmul g.fadeStep (fdiv 255 TOTAL_FADE_STEPS))
      let g1 := setAlpha g np alpha
      let newVolume : ℚ := fdiv (Rat.divInt alpha 1) 255
      let g2 := setVol g1 np newVolume
      let g3 := setVol g2 cp (fsub 1 newVolume)
      let g4 := { g3 with fadeStep := fadd g3.fadeStep FADE_STEPS }
      if g4.fadeStep > TOTAL_FADE_STEPS then
        let g5 := { g4 with isFading := false }
        let g6 := stopSound g5 cp
        .ok { g6 with currPhase := g6.nextPhase }
      else
        .ok g4
    | _, _ => .error "AttributeError"
  else
    .ok g

/-- Runs `k` successive scheduling ticks. -/
def tickN : ℕ → GameState → Except String GameState
  | 0, g => .ok g
  | k + 1, g =>
    match draw_phase g with
    | .ok g1 => tickN k g1
    | .error e => .error e

/-- A manual navigation direction (Right/Space vs. Left keys). -/
inductive Direction where
  | next
  | prev
deriving DecidableEq

/-- Python `self.curr_phase.next` / `self.curr_phase.prev`. -/
def navTarget (g : GameState) : Direction → Option ℕ
  | .next => (getNode g g.currPhase).next
  | .prev => (getNode g g.currPhase).prev

/-- A key-triggered advance request:
`self._change_phase(self.curr_phase.next/prev)` (src/phusic.py:111-115). -/
def requestAdvance (g : GameState) (d : Direction) (now : ℚ) : Except String GameState :=
  change_phase g (navTarget g d) now

/-- A forced change request:
`self._set_phase(self.curr_phase.next/prev)` (src/phusic.py:117-121). -/
def requestForce (g : GameState) (d : Direction) (now : ℚ) : Except String GameState :=
  set_phase g (navTarget g d) now

/-- The key-triggered override branch (src/phusic.py:125-128):
`ending_node = Node(phase); self._change_phase(ending_node)`.  The fresh
node is appended to the arena; it carries the phase value and no links. -/
def overridePhase (g : GameState) (p : ℕ) (now : ℚ) : Except String GameState :=
  let g1 := { g with nodes := g.nodes ++ [⟨some p, none, none⟩] }
  change_phase g1 (some g.nodes.length) now

/-- Models `util.create_linked_list` plus `linked_list.CircularDoublyLinkedList`.
Modelled from the spec: the list class is not among the source files; §4.4
of the spec specifies a cyclic doubly-linked structure preserving order,
with the successor of the last element being the first and the predecessor
of the first being the last. -/
def create_linked_list (phases : List ℕ) : List Node :=
  let n := phases.length
  phases.mapIdx fun i p => ⟨some p, some ((i + 1) % n), some ((i + n - 1) % n)⟩

/-! Concrete two-phase engine for the fade-law run: the cyclic list holds
phases `0` and `1`, the cursor starts at phase `0` (playing at volume 1),
and `next_phase` starts as the valueless `Node(None)` (arena index 2). -/

/-- The engine state right after `Game._initial_phase` on a two-phase
configuration. -/
def fadeDemoInit : GameState :=
  { nodes := [⟨some 0, some 1, some 1⟩, ⟨some 1, some 0, some 0⟩, ⟨none, none, none⟩]
    audio := [⟨true, 1⟩, ⟨false, 1⟩]
    bgAlpha := [255, 255]
    currPhase := 0
    nextPhase := 2
    isFading := false
    fadeStep := 0
    phaseStartedAt := 0
    events := [] }

/-- The fade-law run: request an advance to phase 1 (entering Fading), then
run `k` scheduling ticks. -/
def fadeRun (k : ℕ) : Except String GameState :=
  match change_phase fadeDemoInit (some 1) 0 with
  | .ok g => tickN k g
  | .error e => .error e

/-- Linear single-pass checker for the per-tick fade law along the
concrete fade run.  Writing `prog` for the progress counter as it stands
*before* a tick, each tick must set the pending-phase volume to
`float(int(prog) / 255)`, the current-phase volume to `1.0` minus that,
and the pending image's overlay alpha to `int(prog)`; it must advance the
counter by exactly one rounded `FADE_STEPS` addition (so along the run
the counter takes the values `fadeAfter 0, fadeAfter 1, ...`); and it
must leave Fading exactly when the advanced counter exceeds
`TOTAL_FADE_STEPS`. -/
def checkFadeRun : ℕ → GameState → Bool
  | 0, _ => true
  | n + 1, g =>
    match draw_phase g with
    | .error _ => false
    | .ok g1 =>
      ((getAudio g1 1).volume == fdiv (Rat.divInt (pyInt g.fadeStep) 1) 255
        && (getAudio g1 0).volume == fsub 1 (fdiv (Rat.divInt (pyInt g.fadeStep) 1) 255)
        && g1.bgAlpha.getD 1 0 == pyInt g.fadeStep
        && g1.fadeStep == fadd g.fadeStep FADE_STEPS
        && g1.isFading == !(decide (TOTAL_FADE_STEPS < g1.fadeStep)))
        && checkFadeRun n g1

/-! ## Phase loader (`src/config_manager.py`, `ConfigManager._load_phases`)

Asset resolution (`_get_files_from_asset`) is abstracted: a category enters
the loader with its already-resolved audio-path and image-path lists.
`random.choice` is abstracted as a parameter `rchoice` together with the
hypotheses a uniform choice satisfies: it yields `none` exactly on an
empty list (Python raises `IndexError` there) and always picks a member. -/

/-- One phase instance `Phase(phase.name, audio, img)`. -/
structure PhaseInstance where
  name : String
  audio : String
  img : String
deriving DecidableEq

/-- One declared phase category, with its resolved asset path lists. -/
structure PhaseCategory where
  name : String
  audioPaths : List String
  imgPaths : List String
deriving DecidableEq

/-- Python errors a loader thread can die of. -/
inductive LoadErr where
  | valueError
  | indexError
  | zeroDivisionError
deriving DecidableEq

/-- The per-category instance build (src/config_manager.py:66-77): one
`Phase` per resolved image, each paired with a `random.choice` from the
category's resolved audio paths.  `random.choice` on an empty list raises
`IndexError`. -/
def build_instances (rchoice : List String → Option String) (cat : PhaseCategory) :
    Except LoadErr (List PhaseInstance) :=
  cat.imgPaths.mapM fun img =>
    match rchoice cat.audioPaths with
    | none => .error .indexError
    | some audio => .ok (⟨cat.name, audio, img⟩ : PhaseInstance)

/-- Python `max(len(p) for p in phases)` — `ValueError` on an empty sequence. -/
def maxLen (phases : List (List PhaseInstance)) : Except LoadErr ℕ :=
  match phases.map List.length with
  | [] => .error .valueError
  | x :: xs => .ok (xs.foldl max x)

/-- Python `phase[i % len(phase)]` — `ZeroDivisionError` when `len(phase) = 0`. -/
def pickIdx (phase : List PhaseInstance) (i : ℕ) : Except LoadErr PhaseInstance :=
  if h : 0 < phase.length then .ok (phase.get ⟨i % phase.length, Nat.mod_lt _ h⟩)
  else .error .zeroDivisionError

/-- The interleave loop (src/config_manager.py:81-90): for `i` in
`range(max_length)`, append `phase[i % len(phase)]` for each category in
declared order. -/
def interleave (phases : List (List PhaseInstance)) : Except LoadErr (List PhaseInstance) :=
  match maxLen phases with
  | .error e => .error e
  | .ok maxLength =>
    match (List.range maxLength).mapM (fun i => phases.mapM (fun phase => pickIdx phase i)) with
    | .error e => .error e
    | .ok rows => .ok rows.flatten

/-- Python `ConfigManager._load_phases` (src/config_manager.py:61-90), with asset
resolution abstracted into the categories' path lists. -/
def load_phases (rchoice : List String → Option String) (cats : List PhaseCategory) :
    Except LoadErr (List PhaseInstance) :=
  match cats.mapM (build_instances rchoice) with
  | .error e => .error e
  | .ok instanceLists => interleave instanceLists

/-- The largest per-category instance count (`n` in the interleaving law). -/
def maxCount (phases : List (List PhaseInstance)) : ℕ :=
  match phases.map List.length with
  | [] => 0
  | x :: xs => xs.foldl max x

/-- The interleaving law's published order, written as a closed form:
outer step `i` in `0..n-1` emits, for each category in declared order, the
instance at index `i mod` that category's count. -/
def interleaveSpec (phases : List (List PhaseInstance)) : List PhaseInstance :=
  (List.range (maxCount phases)).flatMap fun i =>
    phases.map fun phase => phase.getD (i % phase.length) ⟨"", "", ""⟩

/-! ## Loader readiness gate (`src/config_manager.py`, slots and
`_loading_complete` / `get_assets` / `status`)

`ConfigManager` holds three write-once slots `_phases`, `_endings`,
`_sfxs`, each `None` until its loader thread's final assignment. -/

/-- Constructor `Ending(key, name, audio, img)`. -/
structure Ending where
  key : ℕ
  name : String
  audio : String
  img : String
deriving DecidableEq

/-- Constructor `Sfx(key, path)`. -/
structure Sfx where
  key : ℕ
  path : String
deriving DecidableEq

/-- The three result slots of `ConfigManager`. -/
structure LoadState where
  phases : Option (List PhaseInstance)
  endings : Option (List Ending)
  sfxs : Option (List Sfx)
deriving DecidableEq

/-- Python `ConfigManager._loading_complete` (src/config_manager.py:56-59):
`all(asset is not None for asset in [_phases, _endings, _sfxs])`. -/
def loading_complete (s : LoadState) : Bool :=
  s.phases.isSome && s.endings.isSome && s.sfxs.isSome

/-- Python `ConfigManager.get_assets` (src/config_manager.py:44-48): raises
`ValueError("Assets not loaded, use load_assets() first")` unless loading
is complete. -/
def get_assets (s : LoadState) :
    Except String (List PhaseInstance × List Ending × List Sfx) :=
  if loading_complete s then
    match s.phases, s.endings, s.sfxs with
    | some ph, some en, some sf => .ok (ph, en, sf)
    | _, _, _ => .error "unreachable"
  else .error "Assets not loaded, use load_assets() first"

/-- The completion event of one loader task: the single final assignment
`self._phases = ordered_phases` / `self._endings = endings` /
`self._sfxs = sfxs` that sets the task's slot. -/
inductive LoadEvent where
  | setPhases (v : List PhaseInstance)
  | setEndings (v : List Ending)
  | setSfx (v : List Sfx)
deriving DecidableEq

/-- Apply one completion event to the slots.  Each task writes only its
own slot, and no event can return a slot to `None`. -/
def applyEvent (s : LoadState) : LoadEvent → LoadState
  | .setPhases v => { s with phases := some v }
  | .setEndings v => { s with endings := some v }
  | .setSfx v => { s with sfxs := some v }

/-- A finished loading schedule: fold an arbitrary interleaving of
completion events over the initial (or any) slot state. -/
def runEvents (s : LoadState) (l : List LoadEvent) : LoadState :=
  l.foldl applyEvent s

/-! ## Asset locator (`ConfigManager.asset_to_path`, src/config_manager.py:117-146,
and `util.get_files_from_path`, src/util.py:13-38)

The filesystem is abstracted to: whether the configuration's asset root
exists, plus the (sorted) entry lists the two index calls would produce.
The embedding keeps Python's call semantics for keyword arguments:
`asset_to_path` invokes `get_files_from_path(path, recursive=True,
include_dirs=True)`, while `util.get_files_from_path` is declared as
`def get_files_from_path(path, extension=None, recursive=False)`; a
keyword argument that is not among the callee's parameters raises
`TypeError` before the callee's body runs. -/

/-- The parameter names of `util.get_files_from_path` (src/util.py:13). -/
def get_files_from_path_params : List String := ["path", "extension", "recursive"]

/-- The keyword arguments passed at the two index-building calls inside
`asset_to_path` (src/config_manager.py:133-136). -/
def asset_index_kwargs : List String := ["recursive", "include_dirs"]

/-- Python's keyword-argument check: every keyword must name a parameter. -/
def kwargsAccepted : Bool :=
  asset_index_kwargs.all fun k => get_files_from_path_params.contains k

/-- The abstracted filesystem view that `asset_to_path` consumes. -/
structure AssetFs where
  rootExists : Bool
  configEntries : List String
  commonEntries : List String

/-- Python `f.replace("\\", "/").rstrip("/")` (src/config_manager.py:140-141). -/
def cleanPath (s : String) : String :=
  (s.replace "\\" "/").dropRightWhile (· = '/')

/-- Python `ConfigManager.asset_to_path` (src/config_manager.py:117-146): checks
the configuration's asset root, builds the two indexes (configuration-
specific first, then common), and returns the first entry whose cleaned
form ends with the cleaned requested name; `FileNotFoundError` otherwise.
The index-building calls pass `include_dirs=True`, which
`util.get_files_from_path` does not accept, so in Python they raise
`TypeError` whenever the root-existence check passes. -/
def asset_to_path (fs : AssetFs) (asset : String) : Except PyErr String :=
  if !fs.rootExists then
    .error (.fileNotFound "Path does not exist")
  else if !kwargsAccepted then
    .error (.typeError "get_files_from_path() got an unexpected keyword argument")
  else
    match (fs.configEntries ++ fs.commonEntries).find?
        (fun f => (cleanPath f).endsWith (cleanPath asset)) with
    | some f => .ok f
    | none => .error (.fileNotFound "Asset not found")

/-! ## Config validator (`src/config_manager.py`)

`asset_to_path` is abstracted behind a `resolve` parameter for the
referential-integrity check (in Python every failure there is an
exception propagating out of `assert_files_exists`, which has no
`try`/`except`). -/

/-- The asset references of one configuration, in the traversal order of
`assert_files_exists` (src/config_manager.py:188-202): per phase its image
then its soundtracks, per ending its image then its audio, per sound
effect its audio, then the font. -/
structure SpecConfig where
  phases : List (String × List String)
  endings : List (String × String)
  sfx : List String
  font : String

/-- Python `ConfigManager.assert_files_exists` (src/config_manager.py:187-202):
resolves every reference in order; the first failed resolution raises out
of the check immediately (there is no collection of failures). -/
def assert_files_exists (resolve : String → Except PyErr String) (c : SpecConfig) :
    Except PyErr Unit := do
  c.phases.forM fun ph => do
    let _ ← resolve ph.1
    ph.2.forM fun soundtrack => do
      let _ ← resolve soundtrack
  c.endings.forM fun e => do
    let _ ← resolve e.1
    let _ ← resolve e.2
  c.sfx.forM fun s => do
    let _ ← resolve s
  let _ ← resolve c.font

/-- The references of a configuration flattened in traversal order. -/
def refsList (c : SpecConfig) : List String :=
  (c.phases.flatMap fun ph => ph.1 :: ph.2)
    ++ (c.endings.flatMap fun e => [e.1, e.2])
    ++ c.sfx ++ [c.font]

/-- The error of the first reference that fails to resolve, if any. -/
def firstRefError (resolve : String → Except PyErr String) (c : SpecConfig) :
    Option PyErr :=
  (refsList c).findSome? fun r =>
    match resolve r with
    | .error e => some e
    | .ok _ => none

/-- Sequential resolution of a reference list: the first failure aborts.
(The loop form of `assert_files_exists` after flattening its nested
traversal order.) -/
def resolveAll (resolve : String → Except PyErr String) : List String → Except PyErr Unit
  | [] => .ok ()
  | r :: rest =>
    match resolve r with
    | .error e => .error e
    | .ok _ => resolveAll resolve rest

/-- Python `os.path.basename`: the part after the last `/` (computed over the
character list; `String.splitOn` is not kernel-reducible). -/
def basename (p : String) : String :=
  String.mk ((p.data.reverse.takeWhile fun c => c ≠ '/').reverse)

/-- The body of the name test in `assert_valid_names`
(src/config_manager.py:180): `none_or_whitespace(f) or not
re.match(r"^[a-z0-9_.]*$", basename(f))`.  (`f` is never `None` here;
`str.isspace` is true iff the string is nonempty and all whitespace.) -/
def invalidName (f : String) : Bool :=
  (f ≠ "" && f.all Char.isWhitespace)
    || !((basename f).all fun ch => ('a' ≤ ch && ch ≤ 'z') || ('0' ≤ ch && ch ≤ '9') || ch = '_' || ch = '.')

/-- Python `ConfigManager.assert_valid_names` (src/config_manager.py:172-185):
walks every file, reporting each invalid name, and only raises after the
whole walk; returns the reported violations (in walk order) and the raised
flag. -/
def assert_valid_names : List String → List String × Bool
  | [] => ([], false)
  | f :: rest =>
    let r := assert_valid_names rest
    (if invalidName f then f :: r.1 else r.1, invalidName f || r.2)

/-- The loop of `ConfigManager._assert_no_duplicates`
(src/config_manager.py:226-233), carrying the `found_files` list of
already-seen basenames, as the source does. -/
def noDupLoop (found clashes : List String) (err : Bool) :
    List String → List String × Bool
  | [] => (clashes, err)
  | path :: rest =>
    if basename path ∈ found then
      noDupLoop (found ++ [basename path]) (clashes ++ [path]) true rest
    else
      noDupLoop (found ++ [basename path]) clashes err rest

/-- Python `ConfigManager._assert_no_duplicates` (src/config_manager.py:218-238):
walks the files of one top-level directory, reporting every path whose
basename was already seen, and only raises after the whole walk; returns
the reported clashes and the raised flag. -/
def assert_no_duplicates (files : List String) : List String × Bool :=
  noDupLoop [] [] false files

/-- Python `ConfigManager.assert_non_clashing_assets` (src/config_manager.py:204-216):
runs `_assert_no_duplicates` per immediate top-level directory; the first
directory containing a clash raises, and later directories are never
examined.  The error carries the clashes reported for that directory. -/
def assert_non_clashing : List (List String) → Except (List String) Unit
  | [] => .ok ()
  | d :: rest =>
    match assert_no_duplicates d with
    | (clashes, true) => .error clashes
    | (_, false) => assert_non_clashing rest

/-- The paths of `files` that duplicate the basename of a strictly earlier
path, relative to a list `pre` of already-processed paths — the complete
set of basename-clash violations. -/
def dupsAfter (pre : List String) : List String → List String
  | [] => []
  | p :: rest =>
    if basename p ∈ pre.map basename then
      p :: dupsAfter (pre ++ [p]) rest
    else
      dupsAfter (pre ++ [p]) rest

/-- All basename-clash violations of one directory. -/
def lateDups (files : List String) : List String := dupsAfter [] files

/-! ## Start-phase lookup (`Game.run`, src/phusic.py:69-77, and
`util.create_linked_list`, src/util.py:41-47)

```
start_phase = next(phase for phase in self.phases if phase.unique_id == config.start_phase)
if not start_phase:
    raise ValueError("Start phase not found")
self.linked_list = util.create_linked_list(start_phase, self.phases)
```
`next()` without a default raises `StopIteration` when the generator is
exhausted, and `Phase` instances are always truthy, so the explicit
`ValueError` is unreachable.  `util.create_linked_list` is declared with
one parameter (src/util.py:41) but called with two. -/

/-- A loaded `Phase` as seen by `Game.run` (only identity matters here). -/
structure PhaseVal where
  uniqueId : String
  name : String
deriving DecidableEq

/-- A Python `Phase` declares neither `__bool__` nor `__len__`: instances are
always truthy in Python. -/
def pyTruthy (_ : PhaseVal) : Bool := true

/-- The start-phase lookup of `Game.run` (src/phusic.py:69-73). -/
def find_start (phases : List PhaseVal) (startId : String) : Except PyErr PhaseVal :=
  match phases.find? (fun p => p.uniqueId == startId) with
  | none => .error .stopIteration
  | some p =>
    if !pyTruthy p then .error (.valueError "Start phase not found")
    else .ok p

/-- The parameter count of `util.create_linked_list` (src/util.py:41). -/
def create_linked_list_arity : ℕ := 1

/-- The positional-argument count at the call site
`util.create_linked_list(start_phase, self.phases)` (src/phusic.py:75). -/
def create_linked_list_call_args : ℕ := 2

/-- The list-building step of `Game.run` (src/phusic.py:69-77): look up the
start phase, then call `util.create_linked_list(start_phase, self.phases)`.
On success the current cursor would be `linked_list.head`; the call itself
raises `TypeError` because the callee takes one positional argument. -/
def build_start (phases : List PhaseVal) (startId : String) : Except PyErr ℕ :=
  match find_start phases startId with
  | .error e => .error e
  | .ok _ =>
    if create_linked_list_call_args ≠ create_linked_list_arity then
      .error (.typeError "create_linked_list() takes 1 positional argument but 2 were given")
    else
      .ok 0

/-! Concrete three-phase engine for the override run (claim C4): a cyclic
list over phases `0, 1, 2` (arena indices `0..2`), the valueless initial
`Node(None)` at index `3`, cursor at phase `0`.  Phase `2` plays the role
of the key-triggered ending phase. -/

/-- Initial three-phase engine state for the override run. -/
def overrideDemoInit : GameState :=
  { nodes := create_linked_list [0, 1, 2] ++ [⟨none, none, none⟩]
    audio := [⟨true, 1⟩, ⟨false, 1⟩, ⟨false, 1⟩]
    bgAlpha := [255, 255, 255]
    currPhase := 0
    nextPhase := 3
    isFading := false
    fadeStep := 0
    phaseStartedAt := 0
    events := [] }

/-- The override run: the key bound to phase `2` fires (wrapping phase `2`
in a fresh `Node` and fading to it), then `k` scheduling ticks run. -/
def overrideRun (k : ℕ) : Except String GameState :=
  match overridePhase overrideDemoInit 2 0 with
  | .ok g => tickN k g
  | .error e => .error e

/-- A two-phase engine caught mid-fade (cursor at phase `0`, pending phase
`1`, both audible), used to witness the hard-cut contract from a Fading
state. -/
def forceDemo : GameState :=
  { nodes := [⟨some 0, some 1, some 1⟩, ⟨some 1, some 0, some 0⟩, ⟨none, none, none⟩]
    audio := [⟨true, mkRat 1 2⟩, ⟨true, mkRat 1 2⟩]
    bgAlpha := [255, 120]
    currPhase := 0
    nextPhase := 1
    isFading := true
    fadeStep := 100
    phaseStartedAt := 0
    events := [] }

/-- Concrete instances for the `[2,1]`-category interleaving example. -/
def instA0 : PhaseInstance := ⟨"A", "a.mp3", "a0.png"⟩

/-- Second instance of category `A`. -/
def instA1 : PhaseInstance := ⟨"A", "a.mp3", "a1.png"⟩

/-- The single instance of category `B`. -/
def instB0 : PhaseInstance := ⟨"B", "b.mp3", "b0.png"⟩

/-! # Theorems -/

/-- Applying `stopSound` changes only audio state and the event log. -/
theorem getNode_stopSound (g : GameState) (p i : ℕ) :
    getNode (stopSound g p) i = getNode g i := rfl

/-- Applying `stopSound` does not move the current cursor. -/
theorem currPhase_stopSound (g : GameState) (p : ℕ) :
    (stopSound g p).currPhase = g.currPhase := rfl

/-- Clearing the Fading flag and the progress counter does not change the
node arena. -/
theorem getNode_clear_fading (g : GameState) (b : Bool) (q : ℚ) (i : ℕ) :
    getNode { g with isFading := b, fadeStep := q } i = getNode g i := rfl

/-- Reading back an in-range `List.set`. -/
theorem getD_set_self {α : Type} (l : List α) (i : ℕ) (a d : α) (h : i < l.length) :
    (l.set i a).getD i d = a := by
  simp [List.getD_eq_getElem?_getD, List.getElem?_set_self h]

/-- C2: while a fade is in progress (`is_fading = True`), a
`requestAdvance` in either direction returns the state unchanged: the
Fading flag, the fade progress counter, both cursors, the audio states and
the event log (hence: no playback is started) are all exactly as before. -/
theorem c2_advance_noop_while_fading (g : GameState) (d : Direction) (now : ℚ) :
    requestAdvance { g with isFading := true } d now = .ok { g with isFading := true } :=
  rfl

set_option maxHeartbeats 2000000 in
/-- C1, counterexample: the fade law as claimed fails on the code.  On the
concrete two-phase run, after 100 ticks the engine is Idle but the fade
progress counter has *not* been reset (it retains the accumulated value
`255.00000000000045`); and the pending volume set during a tick is the
*truncated* `int(progress)/255`, not `progress × (1/255)` — after 2 ticks
the volume is `2/255` while the progress around that tick is `2.55` /
`5.1`. -/
theorem c1_fade_law_counterexample :
    (fadeRun 100).toOption.map GameState.isFading = some false ∧
    (fadeRun 100).toOption.map GameState.fadeStep ≠ some 0 ∧
    (fadeRun 2).toOption.map (fun s => (getAudio s 1).volume) = some (fdiv 2 255) ∧
    fdiv 2 255 ≠ ratDiv (fadeAfter 1) 255 ∧
    fdiv 2 255 ≠ ratDiv (fadeAfter 2) 255 := by
  decide

set_option maxHeartbeats 4000000 in
/-- C1, amended: on the two-phase run entering Fading at tick 0 —
each tick adds `FADE_STEPS` (the binary64 value nearest
`255/(5·20) = 2.55`) to the progress counter with binary64 rounding;
the tick with index `k` sets the pending volume to
`float(int(progress)/255)` and the current volume to `1.0 -` that, where
`progress = fadeAfter k` is the counter *before* that tick's increment,
and sets the overlay alpha to `int(progress)`; after 50 ticks the volumes
are `124/255 ≈ 0.486` and `131/255 ≈ 0.514` (each within `0.014` of
`0.5`); the engine is still Fading after 99 ticks, and the transition
completes during tick 100 (accumulated rounding puts the counter at
`255.00000000000045 > 255`): the current phase's audio is stopped, the
pending cursor is promoted, the state is Idle — but the progress counter
is *not* reset; it keeps its final value. -/
theorem c1_fade_law_amended :
    FADE_STEPS = mkRat 2871044762448691 (2 ^ 50) ∧
    (match change_phase fadeDemoInit (some 1) 0 with
     | .ok g => checkFadeRun 100 g
     | .error _ => false) = true ∧
    fdiv 124 255 = mkRat 8759942804610847 (2 ^ 54) ∧
    fsub 1 (fdiv 124 255) = mkRat 289201740777223 (2 ^ 49) ∧
    fadeAfter 50 = mkRat 8972014882652153 (2 ^ 46) ∧
    (fadeRun 50).toOption.map
        (fun s => ((getAudio s 1).volume, (getAudio s 0).volume, s.isFading, s.fadeStep)) =
      some (mkRat 8759942804610847 (2 ^ 54), mkRat 289201740777223 (2 ^ 49), true,
        mkRat 8972014882652153 (2 ^ 46)) ∧
    qSub (mkRat 1 2) (mkRat 8759942804610847 (2 ^ 54)) ≤ mkRat 7 500 ∧
    qSub (mkRat 289201740777223 (2 ^ 49)) (mkRat 1 2) ≤ mkRat 7 500 ∧
    (fadeRun 99).toOption.map GameState.isFading = some true ∧
    fadeAfter 100 = mkRat 560750930165761 (2 ^ 41) ∧
    (fadeRun 100).toOption.map
        (fun s => (s.isFading, s.currPhase, (getAudio s 0).playing, (getAudio s 1).playing, s.fadeStep)) =
      some (false, 1, false, true, mkRat 560750930165761 (2 ^ 41)) ∧
    mkRat 560750930165761 (2 ^ 41) > 255 := by
  decide

set_option maxHeartbeats 4000000 in
/-- C4, counterexample: the claim's navigation conclusion fails on the
code.  On the three-phase run, a key-triggered override to phase `2`
completes its fade at tick 100 with the *fresh, linkless* node as current
cursor; the cyclic successor of phase `2`'s original node is phase `0`,
yet a subsequent advance request is a no-op (the current node has no
successor), leaving phase `2` current instead of navigating to phase
`0`. -/
theorem c4_override_counterexample :
    (overrideRun 100).toOption.map
        (fun s => ((getNode s s.currPhase).value, (getNode s s.currPhase).next, s.isFading)) =
      some (some 2, none, false) ∧
    (getNode overrideDemoInit 2).next = some 0 ∧
    ((overrideRun 100).bind fun s => requestAdvance s .next 1) = overrideRun 100 ∧
    ((overrideRun 100).bind fun s => requestAdvance s .next 1).toOption.map
        (fun s => (getNode s s.currPhase).value) = some (some 2) := by
  decide

/-- C10, counterexample: the claimed precondition is not necessary.  A
configuration with one category whose audio list resolved but whose image
list resolved to nothing does not hit any error branch: the loader
publishes an empty phase sequence, its slot is set, and (with the other
two slots set) loading readiness holds. -/
theorem c10_loader_counterexample :
    load_phases List.head? [⟨"A", ["a.mp3"], []⟩] = .ok [] ∧
    loading_complete ⟨some [], some [], some []⟩ = true := by
  decide

/-- C7: resolving any asset name against a configuration whose declared
asset root exists raises `TypeError` — the index-building calls pass
`include_dirs=True`, which `util.get_files_from_path` does not accept —
before the suffix-matching loop can run; with a missing root the check at
src/config_manager.py:130-131 raises `FileNotFoundError` first. -/
theorem c7_resolution_raises_typeerror (config common : List String) (asset : String) :
    asset_to_path ⟨true, config, common⟩ asset =
      .error (.typeError "get_files_from_path() got an unexpected keyword argument") ∧
    asset_to_path ⟨false, config, common⟩ asset =
      .error (.fileNotFound "Path does not exist") :=
  ⟨rfl, rfl⟩

/-- C9: when no phase carries the start id, the lookup
`next(phase for phase in self.phases if ...)` raises `StopIteration`; the
explicit `ValueError("Start phase not found")` is unreachable for every
input (`Phase` objects are always truthy); and the subsequent
`util.create_linked_list(start_phase, self.phases)` call can never succeed
(the callee accepts one positional argument, the call passes two), so no
cursor is ever positioned. -/
theorem c9_start_phase_lookup (phases : List PhaseVal) (startId : String) (n : ℕ) :
    find_start [⟨"a", "Phase A"⟩] "b" = .error .stopIteration ∧
    (∀ msg, find_start phases startId ≠ .error (.valueError msg)) ∧
    build_start phases startId ≠ .ok n := by
  refine ⟨rfl, ?_, ?_⟩
  · intro msg
    unfold find_start
    cases phases.find? (fun p => p.uniqueId == startId) with
    | none => simp
    | some p => simp [pyTruthy]
  · unfold build_start
    cases find_start phases startId with
    | error e => simp
    | ok p => simp [create_linked_list_call_args, create_linked_list_arity]

/-- Setting a volume then starting playback leaves that phase playing at
the set volume. -/
theorem getAudio_playSound_setVol (g : GameState) (p : ℕ) (v : ℚ)
    (hp : p < g.audio.length) :
    getAudio (playSound (setVol g p v) p) p = ⟨true, v⟩ := by
  simp [getAudio, playSound, setVol, List.length_set, getD_set_self, hp]

/-- C3: from every prior state whose current node holds a phase `cp` and
for every target node holding a phase `p` (with a live sound object), the
hard cut `_set_phase` succeeds and leaves the engine Idle with zero fade
progress, the target node as current cursor and the duration timer reset
to `now`; the audio layer receives, in order: a stop for the pending
phase when the pending node holds one, a stop for the current phase, and
a set-volume-to-1 followed by play for the target, which ends playing at
full volume. -/
theorem c3_force_hard_cut (g : GameState) (nidx : ℕ) (now : ℚ) (cp p : ℕ)
    (hc : (getNode g g.currPhase).value = some cp)
    (ht : (getNode g nidx).value = some p)
    (hp : p < g.audio.length) :
    ∃ g', set_phase g (some nidx) now = .ok g' ∧
      g'.isFading = false ∧ g'.fadeStep = 0 ∧ g'.currPhase = nidx ∧
      g'.phaseStartedAt = now ∧ getAudio g' p = ⟨true, 1⟩ ∧
      g'.events = g.events
        ++ (match (getNode g g.nextPhase).value with
            | some np => [AudioEvent.stop np]
            | none => []) ++ [.stop cp, .setVolume p 1, .play p] := by
  simp only [getNode] at hc ht
  cases hnp : (getNode g g.nextPhase).value with
  | none =>
    simp only [getNode] at hnp
    refine ⟨{ playSound (setVol { stopSound g cp with isFading := false, fadeStep := 0 } p 1) p
              with currPhase := nidx, phaseStartedAt := now }, ?_, rfl, rfl, rfl, rfl, ?_, ?_⟩
    · simp only [set_phase, getNode, stopSound, hnp, hc, ht]
    · exact getAudio_playSound_setVol
        { stopSound g cp with isFading := false, fadeStep := 0 } p 1
        (by simpa [stopSound] using hp)
    · simp [playSound, setVol, stopSound, List.append_assoc]
  | some np =>
    simp only [getNode] at hnp
    refine ⟨{ playSound
        (setVol { stopSound (stopSound g np) cp with isFading := false, fadeStep := 0 } p 1) p
              with currPhase := nidx, phaseStartedAt := now }, ?_, rfl, rfl, rfl, rfl, ?_, ?_⟩
    · simp only [set_phase, getNode, stopSound, hnp, hc, ht]
    · exact getAudio_playSound_setVol
        { stopSound (stopSound g np) cp with isFading := false, fadeStep := 0 } p 1
        (by simpa [stopSound] using hp)
    · simp [playSound, setVol, stopSound, List.append_assoc]

/-- C3 witness: the hard cut applied mid-fade on the concrete two-phase
engine (forcing pending phase `1`). -/
theorem c3_force_hard_cut_witness :
    ∃ g', set_phase forceDemo (some 1) 7 = .ok g' ∧
      g'.isFading = false ∧ g'.fadeStep = 0 ∧ g'.currPhase = 1 ∧
      g'.phaseStartedAt = 7 ∧ getAudio g' 1 = ⟨true, 1⟩ ∧
      g'.events = forceDemo.events
        ++ (match (getNode forceDemo forceDemo.nextPhase).value with
            | some np => [AudioEvent.stop np]
            | none => []) ++ [.stop 0, .setVolume 1 1, .play 1] :=
  c3_force_hard_cut forceDemo 1 7 0 1 (by decide) (by decide) (by decide)

/-- Reading the freshly appended element of a list. -/
theorem getD_concat_length {α : Type} (l : List α) (a d : α) :
    (l ++ [a]).getD l.length d = a := by
  simp [List.getD_eq_getElem?_getD, List.getElem?_concat_length]

/-- C4, amended: a key-triggered override from any non-Fading state wraps
the override phase in a *fresh* node appended to the arena: no successor
or predecessor link of any existing node is mutated, the pending cursor
is the fresh node, and the engine enters Fading with zero progress.  The
fresh node carries no links, so once it has become the current cursor
(after the fade completes), a `requestAdvance` in either direction is a
no-op rather than navigation from the override phase's original position
in the cycle. -/
theorem c4_override_detached (g w : GameState) (p : ℕ) (now now2 : ℚ) (d : Direction) :
    (∃ g', overridePhase { g with isFading := false } p now = .ok g' ∧
      g'.nodes = g.nodes ++ [⟨some p, none, none⟩] ∧
      g'.nextPhase = g.nodes.length ∧
      getNode g' g'.nextPhase = ⟨some p, none, none⟩ ∧
      g'.isFading = true ∧ g'.fadeStep = 0 ∧ g'.currPhase = g.currPhase ∧
      g'.phaseStartedAt = now) ∧
    requestAdvance
        { w with
            isFading := false
            nodes := w.nodes ++ [⟨some p, none, none⟩]
            currPhase := w.nodes.length } d now2 =
      .ok { w with
              isFading := false
              nodes := w.nodes ++ [⟨some p, none, none⟩]
              currPhase := w.nodes.length } := by
  constructor
  · refine ⟨{ playSound (setVol
        { g with
            nodes := g.nodes ++ [⟨some p, none, none⟩]
            isFading := true
            fadeStep := 0
            nextPhase := g.nodes.length } p 0) p
        with phaseStartedAt := now }, ?_, rfl, rfl, ?_, rfl, rfl, rfl, rfl⟩
    · simp [overridePhase, change_phase, getNode, getD_concat_length]
    · exact getD_concat_length g.nodes ⟨some p, none, none⟩ ⟨none, none, none⟩
  · cases d with
    | next =>
      simp [requestAdvance, navTarget, getNode, getD_concat_length, change_phase]
    | prev =>
      simp [requestAdvance, navTarget, getNode, getD_concat_length, change_phase]

/-! Generic lemmas about `List.mapM` in the `Except` monad. -/

/-- An `Except` computation is `isOk` iff it returns a value. -/
theorem isOk_iff_exists {ε α : Type} (e : Except ε α) :
    e.isOk = true ↔ ∃ a, e = .ok a := by
  cases e <;> simp [Except.isOk, Except.toBool]

/-- A `mapM` over `Except` succeeds with `bs` exactly when it succeeds
pointwise. -/
theorem mapM_eq_ok_iff {α β ε : Type} (f : α → Except ε β) :
    ∀ (l : List α) (bs : List β),
      l.mapM f = .ok bs ↔ List.Forall₂ (fun a b => f a = .ok b) l bs := by
  intro l
  induction l with
  | nil =>
    intro bs
    constructor
    · intro hbs
      simp only [List.mapM_nil] at hbs
      have : ([] : List β) = bs := by
        simpa [pure, Except.pure] using hbs
      rw [← this]
      exact List.Forall₂.nil
    · intro h
      cases h
      rfl
  | cons a l ih =>
    intro bs
    rw [List.mapM_cons]
    constructor
    · intro hbs
      cases hfa : f a with
      | error e =>
        rw [hfa] at hbs
        simp [Bind.bind, Except.bind] at hbs
      | ok b =>
        rw [hfa] at hbs
        cases hml : l.mapM f with
        | error e =>
          rw [hml] at hbs
          simp [Bind.bind, Except.bind] at hbs
        | ok bs2 =>
          rw [hml] at hbs
          have : b :: bs2 = bs := by
            simpa [Bind.bind, Except.bind, pure, Except.pure] using hbs
          rw [← this]
          exact List.Forall₂.cons hfa ((ih bs2).mp hml)
    · intro h
      cases h with
      | cons hab hrest =>
        rw [hab, (ih _).mpr hrest]
        rfl

/-- A `mapM` succeeds with the pointwise map when every element succeeds
with a known value. -/
theorem mapM_ok_of_forall {α β ε : Type} (f : α → Except ε β) (gfun : α → β)
    (l : List α) (h : ∀ a ∈ l, f a = .ok (gfun a)) :
    l.mapM f = .ok (l.map gfun) :=
  (mapM_eq_ok_iff f l (l.map gfun)).mpr
    (List.forall₂_map_right_iff.mpr (List.forall₂_same.mpr h))

/-- Every element of a successful `mapM` run succeeded. -/
theorem mapM_ok_mem {α β ε : Type} {f : α → Except ε β} {l : List α}
    {bs : List β} (h : l.mapM f = .ok bs) :
    ∀ a ∈ l, ∃ b, f a = .ok b := by
  have h2 := (mapM_eq_ok_iff f l bs).mp h
  clear h
  induction h2 with
  | nil => intro a ha; cases ha
  | cons hab htail ih =>
    intro x hx
    rcases List.mem_cons.mp hx with rfl | hmem
    · exact ⟨_, hab⟩
    · exact ih x hmem

/-- Pair each left member of a `Forall₂` with a related right member. -/
theorem forall2_mem_left {α β : Type} {R : α → β → Prop} {l : List α}
    {bs : List β} (h : List.Forall₂ R l bs) :
    ∀ a ∈ l, ∃ b ∈ bs, R a b := by
  induction h with
  | nil => intro a ha; cases ha
  | cons hab htail ih =>
    intro x hx
    rcases List.mem_cons.mp hx with rfl | hmem
    · exact ⟨_, List.mem_cons_self _ _, hab⟩
    · obtain ⟨b, hb, hr⟩ := ih x hmem
      exact ⟨b, List.mem_cons_of_mem _ hb, hr⟩

/-- Pair each right member of a `Forall₂` with a related left member. -/
theorem forall2_mem_right {α β : Type} {R : α → β → Prop} {l : List α}
    {bs : List β} (h : List.Forall₂ R l bs) :
    ∀ b ∈ bs, ∃ a ∈ l, R a b := by
  induction h with
  | nil => intro b hb; cases hb
  | cons hab htail ih =>
    intro y hy
    rcases List.mem_cons.mp hy with rfl | hmem
    · exact ⟨_, List.mem_cons_self _ _, hab⟩
    · obtain ⟨a, ha, hr⟩ := ih y hmem
      exact ⟨a, List.mem_cons_of_mem _ ha, hr⟩

/-! Lemmas about the phase loader. -/

/-- Python `phase[i % len(phase)]` succeeds on a nonempty list and returns the
claimed indexed element. -/
theorem pickIdx_ok (phase : List PhaseInstance) (i : ℕ) (h : phase ≠ []) :
    pickIdx phase i = .ok (phase.getD (i % phase.length) ⟨"", "", ""⟩) := by
  have hl : 0 < phase.length := List.length_pos.mpr h
  have hm : i % phase.length < phase.length := Nat.mod_lt _ hl
  simp [pickIdx, hl, List.getD_eq_getElem?_getD, List.getElem?_eq_getElem hm,
    List.get_eq_getElem]

/-- The selector `pickIdx` succeeds exactly on nonempty lists. -/
theorem pickIdx_isOk_iff (phase : List PhaseInstance) (i : ℕ) :
    (∃ x, pickIdx phase i = .ok x) ↔ phase ≠ [] := by
  constructor
  · rintro ⟨x, hx⟩ rfl
    simp [pickIdx] at hx
  · intro h
    exact ⟨_, pickIdx_ok phase i h⟩

/-- Python `max(len(p) for p in phases)` succeeds on a nonempty category list and
returns the largest count. -/
theorem maxLen_ok (phases : List (List PhaseInstance)) (h : phases ≠ []) :
    maxLen phases = .ok (maxCount phases) := by
  cases phases with
  | nil => exact absurd rfl h
  | cons a l => rfl

/-- A left fold of `max` is zero iff every input is zero. -/
theorem foldl_max_eq_zero_iff : ∀ (xs : List ℕ) (x : ℕ),
    xs.foldl max x = 0 ↔ x = 0 ∧ ∀ y ∈ xs, y = 0 := by
  intro xs
  induction xs with
  | nil => simp
  | cons y ys ih =>
    intro x
    rw [List.foldl_cons, ih]
    constructor
    · rintro ⟨hxy, hall⟩
      rcases Nat.max_eq_zero_iff.mp hxy with ⟨hx, hy⟩
      exact ⟨hx, by simpa [hy] using hall⟩
    · rintro ⟨hx, hall⟩
      have hy := hall y (List.mem_cons_self _ _)
      exact ⟨Nat.max_eq_zero_iff.mpr ⟨hx, hy⟩, fun z hz => hall z (List.mem_cons_of_mem _ hz)⟩

/-- The largest per-category count is zero iff every category is empty. -/
theorem maxCount_eq_zero_iff (phases : List (List PhaseInstance)) :
    maxCount phases = 0 ↔ ∀ l ∈ phases, l = [] := by
  cases phases with
  | nil => simp [maxCount]
  | cons a l =>
    unfold maxCount
    simp only [List.map_cons]
    rw [foldl_max_eq_zero_iff]
    constructor
    · rintro ⟨ha, hall⟩
      intro x hx
      rcases List.mem_cons.mp hx with rfl | hmem
      · exact List.length_eq_zero.mp ha
      · exact List.length_eq_zero.mp (hall x.length (List.mem_map_of_mem _ hmem))
    · intro h
      refine ⟨List.length_eq_zero.mpr (h a (List.mem_cons_self _ _)), ?_⟩
      intro y hy
      obtain ⟨x, hx, rfl⟩ := List.mem_map.mp hy
      exact List.length_eq_zero.mpr (h x (List.mem_cons_of_mem _ hx))

/-- On a nonempty list of nonempty per-category instance lists, the
interleave loop publishes exactly the closed-form interleaving order. -/
theorem interleave_ok_of_nonempty (phases : List (List PhaseInstance))
    (hne : phases ≠ []) (hall : ∀ l ∈ phases, l ≠ []) :
    interleave phases = .ok (interleaveSpec phases) := by
  unfold interleave
  simp only [maxLen_ok phases hne]
  have hrows : (List.range (maxCount phases)).mapM
      (fun i => phases.mapM (fun phase => pickIdx phase i)) =
      .ok ((List.range (maxCount phases)).map
        (fun i => phases.map (fun l => l.getD (i % l.length) ⟨"", "", ""⟩))) := by
    apply mapM_ok_of_forall
    intro i _
    apply mapM_ok_of_forall
    intro l hl
    exact pickIdx_ok l i (hall l hl)
  rw [hrows]
  simp [interleaveSpec, List.flatMap_def]

/-- The sum of a constant map. -/
theorem sum_map_const {α : Type} (l : List α) (k : ℕ) :
    (l.map (fun _ => k)).sum = l.length * k := by
  induction l with
  | nil => simp
  | cons a t ih => simp [ih, Nat.succ_mul, Nat.add_comm]

/-- The closed-form interleaving order has `n × k` entries. -/
theorem interleaveSpec_length (phases : List (List PhaseInstance)) :
    (interleaveSpec phases).length = maxCount phases * phases.length := by
  unfold interleaveSpec
  rw [List.length_flatMap]
  have hcong : List.map (List.length ∘ fun i =>
      List.map (fun l => l.getD (i % l.length) (⟨"", "", ""⟩ : PhaseInstance)) phases)
        (List.range (maxCount phases)) =
      List.map (fun _ => phases.length) (List.range (maxCount phases)) :=
    List.map_congr_left (fun i _ => List.length_map _ _)
  rw [hcong, sum_map_const, List.length_range]

/-- The interleave loop succeeds iff the category list is nonempty and
either every instance list is empty (`max_length = 0`, so the loop body
never runs) or none is. -/
theorem interleave_isOk_iff (phases : List (List PhaseInstance)) :
    (∃ v, interleave phases = .ok v) ↔
      (phases ≠ [] ∧ (maxCount phases = 0 ∨ ∀ l ∈ phases, l ≠ [])) := by
  constructor
  · rintro ⟨v, hv⟩
    have hne : phases ≠ [] := by
      rintro rfl
      simp [interleave, maxLen] at hv
    refine ⟨hne, ?_⟩
    rcases Nat.eq_zero_or_pos (maxCount phases) with hz | hpos
    · exact Or.inl hz
    · refine Or.inr ?_
      unfold interleave at hv
      simp only [maxLen_ok phases hne] at hv
      cases hrows : (List.range (maxCount phases)).mapM
          (fun i => phases.mapM (fun phase => pickIdx phase i)) with
      | error e => rw [hrows] at hv; cases hv
      | ok rows =>
        intro l hl
        have h0 : (0 : ℕ) ∈ List.range (maxCount phases) := List.mem_range.mpr hpos
        obtain ⟨row, hrow⟩ := mapM_ok_mem hrows 0 h0
        obtain ⟨x, hx⟩ := mapM_ok_mem hrow l hl
        exact (pickIdx_isOk_iff l 0).mp ⟨x, hx⟩
  · rintro ⟨hne, hcond⟩
    rcases hcond with hz | hall
    · refine ⟨[], ?_⟩
      unfold interleave
      simp only [maxLen_ok phases hne, hz]
      rfl
    · exact ⟨interleaveSpec phases, interleave_ok_of_nonempty phases hne hall⟩

/-- One category's instance build succeeds iff it has no images (the loop
body never runs) or its audio list is nonempty. -/
theorem build_instances_isOk_iff (rchoice : List String → Option String)
    (hr : ∀ l, rchoice l = none ↔ l = []) (c : PhaseCategory) :
    (∃ bs, build_instances rchoice c = .ok bs) ↔
      (c.imgPaths = [] ∨ c.audioPaths ≠ []) := by
  constructor
  · rintro ⟨bs, hbs⟩
    rcases himg : c.imgPaths with _ | ⟨img, rest⟩
    · exact Or.inl rfl
    · refine Or.inr ?_
      unfold build_instances at hbs
      have hmem : img ∈ c.imgPaths := by
        rw [himg]
        exact List.mem_cons_self _ _
      obtain ⟨b, hb⟩ := mapM_ok_mem hbs img hmem
      intro hempty
      rw [(hr c.audioPaths).mpr hempty] at hb
      simp at hb
  · intro h
    rcases h with h | h
    · refine ⟨[], ?_⟩
      unfold build_instances
      rw [h]
      rfl
    · obtain ⟨a, ha⟩ := Option.ne_none_iff_exists'.mp (fun hn => h ((hr _).mp hn))
      refine ⟨c.imgPaths.map (fun img => ⟨c.name, a, img⟩), ?_⟩
      apply mapM_ok_of_forall
      intro img _
      rw [ha]

/-- A successful per-category build yields one instance per resolved
image. -/
theorem build_instances_length (rchoice : List String → Option String)
    (c : PhaseCategory) (bs : List PhaseInstance)
    (h : build_instances rchoice c = .ok bs) : bs.length = c.imgPaths.length :=
  ((mapM_eq_ok_iff _ _ _).mp h).length_eq.symm

/-- C5: given per-category instance lists in declared order (at least one
category, all lists nonempty), the interleave loop publishes exactly the
closed-form order `interleaveSpec`: outer step `i ∈ 0..n-1` emits, for
each category in declared order, that category's instance at index
`i mod count`; the published sequence has `n × k` entries, for `n` the
largest per-category count and `k` the number of categories. -/
theorem c5_interleaving_law (phases : List (List PhaseInstance))
    (hne : phases ≠ []) (hall : ∀ l ∈ phases, l ≠ []) :
    interleave phases = .ok (interleaveSpec phases) ∧
    (interleaveSpec phases).length = maxCount phases * phases.length :=
  ⟨interleave_ok_of_nonempty phases hne hall, interleaveSpec_length phases⟩

/-- C5 witness: category sizes `[2, 1]` publish `[A0, B0, A1, B0]` (the
single `B` instance repeats on both outer steps), of length `2 × 2`. -/
theorem c5_interleaving_law_witness :
    (([[instA0, instA1], [instB0]] : List (List PhaseInstance)) ≠ [] ∧
      ∀ l ∈ ([[instA0, instA1], [instB0]] : List (List PhaseInstance)), l ≠ []) ∧
    interleave [[instA0, instA1], [instB0]] = .ok [instA0, instB0, instA1, instB0] ∧
    (interleaveSpec [[instA0, instA1], [instB0]]).length = 2 * 2 := by
  have h1 : ([[instA0, instA1], [instB0]] : List (List PhaseInstance)) ≠ [] := by decide
  have h2 : ∀ l ∈ ([[instA0, instA1], [instB0]] : List (List PhaseInstance)), l ≠ [] := by
    decide
  obtain ⟨hok, hlen⟩ := c5_interleaving_law [[instA0, instA1], [instB0]] h1 h2
  refine ⟨⟨h1, h2⟩, ?_, ?_⟩
  · rw [hok]
    decide
  · rw [hlen]
    decide

/-- C10, amended: with `random.choice` abstracted as any selector failing
exactly on the empty list, the phase loader's final slot assignment is
reached iff the configuration declares at least one category, no category
resolves to one-or-more images but zero audio paths, and the per-category
resolved image counts are not a mix of zero and nonzero.  In particular
the claimed precondition (every category nonempty in both lists) makes
the loader total — but it is not necessary: when every category resolves
zero images the loader also completes, publishing an empty sequence. -/
theorem c10_loader_slot_iff (rchoice : List String → Option String)
    (cats : List PhaseCategory) (hr : ∀ l, rchoice l = none ↔ l = []) :
    (load_phases rchoice cats).isOk = true ↔
      (cats ≠ [] ∧ (∀ c ∈ cats, c.imgPaths ≠ [] → c.audioPaths ≠ []) ∧
        ((∀ c ∈ cats, c.imgPaths = []) ∨ (∀ c ∈ cats, c.imgPaths ≠ []))) := by
  rw [isOk_iff_exists]
  unfold load_phases
  constructor
  · rintro ⟨v, hv⟩
    cases hins : cats.mapM (build_instances rchoice) with
    | error e => rw [hins] at hv; cases hv
    | ok ils =>
      rw [hins] at hv
      have hf2 := (mapM_eq_ok_iff (build_instances rchoice) cats ils).mp hins
      obtain ⟨hilne, hcond⟩ := (interleave_isOk_iff ils).mp ⟨v, hv⟩
      have hcats : cats ≠ [] := by
        rintro rfl
        cases hf2
        exact hilne rfl
      refine ⟨hcats, ?_, ?_⟩
      · intro c hc himgs
        obtain ⟨il, hil, hbuild⟩ := forall2_mem_left hf2 c hc
        rcases (build_instances_isOk_iff rchoice hr c).mp ⟨il, hbuild⟩ with h | h
        · exact absurd h himgs
        · exact h
      · rcases hcond with hz | hne2
        · refine Or.inl ?_
          intro c hc
          obtain ⟨il, hil, hbuild⟩ := forall2_mem_left hf2 c hc
          have hile : il = [] := (maxCount_eq_zero_iff ils).mp hz il hil
          have hlen := build_instances_length rchoice c il hbuild
          rw [hile] at hlen
          exact List.length_eq_zero.mp (by simpa using hlen.symm)
        · refine Or.inr ?_
          intro c hc hcimg
          obtain ⟨il, hil, hbuild⟩ := forall2_mem_left hf2 c hc
          have hlen := build_instances_length rchoice c il hbuild
          rw [hcimg] at hlen
          exact hne2 il hil (List.length_eq_zero.mp (by simpa using hlen))
  · rintro ⟨hcats, haud, hdisj⟩
    have hmapM : cats.mapM (build_instances rchoice) =
        .ok (cats.map (fun c =>
          c.imgPaths.map (fun img => ⟨c.name, (rchoice c.audioPaths).getD "", img⟩))) := by
      apply mapM_ok_of_forall
      intro c hc
      apply mapM_ok_of_forall
      intro img himg
      have haudne : c.audioPaths ≠ [] := haud c hc (List.ne_nil_of_mem himg)
      obtain ⟨a, ha⟩ := Option.ne_none_iff_exists'.mp
        (fun hn => haudne ((hr c.audioPaths).mp hn))
      rw [ha]
      rfl
    rw [hmapM]
    apply (interleave_isOk_iff _).mpr
    refine ⟨by simpa using hcats, ?_⟩
    rcases hdisj with hz | hnz
    · refine Or.inl ((maxCount_eq_zero_iff _).mpr ?_)
      intro il hil
      obtain ⟨c, hc, rfl⟩ := List.mem_map.mp hil
      rw [hz c hc]
      rfl
    · refine Or.inr ?_
      intro il hil
      obtain ⟨c, hc, rfl⟩ := List.mem_map.mp hil
      simpa using hnz c hc

/-- C10 witness: `List.head?` is a selector failing exactly on the empty
list, and on one category with one audio path and one image the loader's
slot assignment is reached. -/
theorem c10_loader_slot_iff_witness :
    (∀ l : List String, List.head? l = none ↔ l = []) ∧
    (load_phases List.head? [⟨"A", ["a.mp3"], ["a0.png"]⟩]).isOk = true := by
  have hr : ∀ l : List String, List.head? l = none ↔ l = [] := fun l =>
    List.head?_eq_none_iff
  refine ⟨hr, ?_⟩
  exact (c10_loader_slot_iff List.head? [⟨"A", ["a.mp3"], ["a0.png"]⟩] hr).mpr (by decide)

/-! Lemmas for the loader readiness gate (C6). -/

/-- Applying any completion event preserves a set phases slot. -/
theorem applyEvent_phases_mono (s : LoadState) (e : LoadEvent)
    (h : s.phases.isSome = true) : (applyEvent s e).phases.isSome = true := by
  cases e with
  | setPhases v => simp [applyEvent]
  | setEndings v => simpa [applyEvent] using h
  | setSfx v => simpa [applyEvent] using h

/-- Applying any completion event preserves a set endings slot. -/
theorem applyEvent_endings_mono (s : LoadState) (e : LoadEvent)
    (h : s.endings.isSome = true) : (applyEvent s e).endings.isSome = true := by
  cases e with
  | setPhases v => simpa [applyEvent] using h
  | setEndings v => simp [applyEvent]
  | setSfx v => simpa [applyEvent] using h

/-- Applying any completion event preserves a set sfx slot. -/
theorem applyEvent_sfxs_mono (s : LoadState) (e : LoadEvent)
    (h : s.sfxs.isSome = true) : (applyEvent s e).sfxs.isSome = true := by
  cases e with
  | setPhases v => simpa [applyEvent] using h
  | setEndings v => simpa [applyEvent] using h
  | setSfx v => simp [applyEvent]

/-- A set phases slot stays set under any further events. -/
theorem runEvents_phases_mono (l : List LoadEvent) : ∀ (s : LoadState),
    s.phases.isSome = true → (runEvents s l).phases.isSome = true := by
  induction l with
  | nil => intro s h; exact h
  | cons e rest ih => intro s h; exact ih _ (applyEvent_phases_mono s e h)

/-- A set endings slot stays set under any further events. -/
theorem runEvents_endings_mono (l : List LoadEvent) : ∀ (s : LoadState),
    s.endings.isSome = true → (runEvents s l).endings.isSome = true := by
  induction l with
  | nil => intro s h; exact h
  | cons e rest ih => intro s h; exact ih _ (applyEvent_endings_mono s e h)

/-- A set sfx slot stays set under any further events. -/
theorem runEvents_sfxs_mono (l : List LoadEvent) : ∀ (s : LoadState),
    s.sfxs.isSome = true → (runEvents s l).sfxs.isSome = true := by
  induction l with
  | nil => intro s h; exact h
  | cons e rest ih => intro s h; exact ih _ (applyEvent_sfxs_mono s e h)

/-- After a phases-completion event somewhere in the schedule, the phases
slot is set. -/
theorem runEvents_phases_of_mem (l : List LoadEvent) (v : List PhaseInstance)
    (h : LoadEvent.setPhases v ∈ l) : ∀ s, (runEvents s l).phases.isSome = true := by
  induction l with
  | nil => cases h
  | cons e rest ih =>
    intro s
    rcases List.mem_cons.mp h with rfl | hmem
    · exact runEvents_phases_mono rest _ (by simp [applyEvent])
    · exact ih hmem _

/-- After an endings-completion event somewhere in the schedule, the
endings slot is set. -/
theorem runEvents_endings_of_mem (l : List LoadEvent) (v : List Ending)
    (h : LoadEvent.setEndings v ∈ l) : ∀ s, (runEvents s l).endings.isSome = true := by
  induction l with
  | nil => cases h
  | cons e rest ih =>
    intro s
    rcases List.mem_cons.mp h with rfl | hmem
    · exact runEvents_endings_mono rest _ (by simp [applyEvent])
    · exact ih hmem _

/-- After an sfx-completion event somewhere in the schedule, the sfx slot
is set. -/
theorem runEvents_sfxs_of_mem (l : List LoadEvent) (v : List Sfx)
    (h : LoadEvent.setSfx v ∈ l) : ∀ s, (runEvents s l).sfxs.isSome = true := by
  induction l with
  | nil => cases h
  | cons e rest ih =>
    intro s
    rcases List.mem_cons.mp h with rfl | hmem
    · exact runEvents_sfxs_mono rest _ (by simp [applyEvent])
    · exact ih hmem _

/-- C6: `get_assets` succeeds exactly when loading is complete (otherwise
it raises the not-loaded `ValueError`); `_loading_complete` holds exactly
when all three slots are set; after any interleaving of schedules
containing all three tasks' completion events, loading is complete; and
completeness, once reached, is preserved by any further events. -/
theorem c6_readiness_gate (s : LoadState) (l : List LoadEvent) :
    ((get_assets s).isOk = true ↔ loading_complete s = true) ∧
    (loading_complete s = true ↔
      (s.phases.isSome = true ∧ s.endings.isSome = true ∧ s.sfxs.isSome = true)) ∧
    ((∃ v, LoadEvent.setPhases v ∈ l) → (∃ v, LoadEvent.setEndings v ∈ l) →
      (∃ v, LoadEvent.setSfx v ∈ l) → loading_complete (runEvents s l) = true) ∧
    (loading_complete s = true → loading_complete (runEvents s l) = true) := by
  obtain ⟨p, e, f⟩ := s
  refine ⟨?_, ?_, ?_, ?_⟩
  · cases p <;> cases e <;> cases f <;>
      simp [get_assets, loading_complete, Except.isOk, Except.toBool]
  · simp [loading_complete, and_assoc]
  · rintro ⟨vp, hvp⟩ ⟨ve, hve⟩ ⟨vf, hvf⟩
    have h1 := runEvents_phases_of_mem l vp hvp ⟨p, e, f⟩
    have h2 := runEvents_endings_of_mem l ve hve ⟨p, e, f⟩
    have h3 := runEvents_sfxs_of_mem l vf hvf ⟨p, e, f⟩
    simp [loading_complete, h1, h2, h3]
  · intro h
    simp only [loading_complete, Bool.and_eq_true] at h
    have h1 := runEvents_phases_mono l ⟨p, e, f⟩ h.1.1
    have h2 := runEvents_endings_mono l ⟨p, e, f⟩ h.1.2
    have h3 := runEvents_sfxs_mono l ⟨p, e, f⟩ h.2
    simp [loading_complete, h1, h2, h3]

/-- C6 witness: from empty slots, the interleaving
`sfx, endings, phases` reaches readiness, and with all slots set
`get_assets` succeeds. -/
theorem c6_readiness_gate_witness :
    loading_complete (runEvents ⟨none, none, none⟩
      [.setSfx [], .setEndings [], .setPhases []]) = true ∧
    ((get_assets ⟨some [], some [], some []⟩).isOk = true ↔
      loading_complete ⟨some [], some [], some []⟩ = true) := by
  constructor
  · exact (c6_readiness_gate ⟨none, none, none⟩
      [.setSfx [], .setEndings [], .setPhases []]).2.2.1
      ⟨[], by simp⟩ ⟨[], by simp⟩ ⟨[], by simp⟩
  · exact (c6_readiness_gate ⟨some [], some [], some []⟩ []).1

/-! Lemmas for the configuration validator (C8). -/

/-- The naming check reports exactly the invalid names and raises iff one
exists. -/
theorem assert_valid_names_spec (files : List String) :
    assert_valid_names files = (files.filter invalidName, files.any invalidName) := by
  induction files with
  | nil => rfl
  | cons f rest ih =>
    simp only [assert_valid_names, ih, List.filter_cons, List.any_cons]

/-- The duplicate-basename loop reports exactly the paths whose basename
occurred earlier (relative to the already-seen prefix `pre`), and raises
iff at least one exists. -/
theorem noDupLoop_spec (files : List String) : ∀ (pre clashes : List String) (err : Bool),
    noDupLoop (pre.map basename) clashes err files =
      (clashes ++ dupsAfter pre files, err || !(dupsAfter pre files).isEmpty) := by
  induction files with
  | nil =>
    intro pre clashes err
    simp [noDupLoop, dupsAfter]
  | cons p rest ih =>
    intro pre clashes err
    simp only [noDupLoop, dupsAfter]
    by_cases h : basename p ∈ pre.map basename
    · rw [if_pos h, if_pos h]
      have : pre.map basename ++ [basename p] = (pre ++ [p]).map basename := by
        simp
      rw [this, ih (pre ++ [p]) (clashes ++ [p]) true]
      simp [List.append_assoc]
    · rw [if_neg h, if_neg h]
      have : pre.map basename ++ [basename p] = (pre ++ [p]).map basename := by
        simp
      rw [this, ih (pre ++ [p]) clashes err]

/-- The check `_assert_no_duplicates` reports all basename clashes of one directory
before raising. -/
theorem assert_no_duplicates_spec (files : List String) :
    assert_no_duplicates files = (lateDups files, !(lateDups files).isEmpty) := by
  have h := noDupLoop_spec files [] [] false
  simpa [assert_no_duplicates, lateDups] using h

/-- The directory scan stops at the first directory whose duplicate check
raises, reporting only that directory's clashes. -/
theorem assert_non_clashing_spec (dirs : List (List String)) :
    assert_non_clashing dirs =
      (match dirs.find? (fun d => (assert_no_duplicates d).2) with
       | some d => .error (assert_no_duplicates d).1
       | none => .ok ()) := by
  induction dirs with
  | nil => rfl
  | cons d rest ih =>
    simp only [assert_non_clashing]
    cases hd : assert_no_duplicates d with
    | mk clashes flag =>
      cases flag with
      | true =>
        rw [List.find?_cons_of_pos _ (by simp [hd])]
        simp [hd]
      | false =>
        rw [List.find?_cons_of_neg _ (by simp [hd])]
        exact ih

/-- One discarding loop over references is the sequential resolution of
its reference list. -/
theorem forM_eq_resolveAll (resolve : String → Except PyErr String) :
    ∀ rs : List String,
      (rs.forM fun r => do let _ ← resolve r) = resolveAll resolve rs := by
  intro rs
  induction rs with
  | nil => rfl
  | cons r rest ih =>
    rw [List.forM_cons']
    cases hr : resolve r with
    | error e =>
      simp only [resolveAll, hr]
      rfl
    | ok x =>
      simp only [resolveAll, hr]
      exact ih

/-- Sequential resolution splits over list append. -/
theorem resolveAll_append (resolve : String → Except PyErr String) :
    ∀ l1 l2 : List String,
      resolveAll resolve (l1 ++ l2) =
        (match resolveAll resolve l1 with
         | .error e => .error e
         | .ok _ => resolveAll resolve l2) := by
  intro l1 l2
  induction l1 with
  | nil => rfl
  | cons r rest ih =>
    simp only [List.cons_append, resolveAll]
    cases hr : resolve r with
    | error e => rfl
    | ok x => exact ih

/-- The phase loop of `assert_files_exists` resolves, per phase, its image
then its soundtracks, in order. -/
theorem phases_forM_eq (resolve : String → Except PyErr String) :
    ∀ ps : List (String × List String),
      (ps.forM fun ph => do
        let _ ← resolve ph.1
        ph.2.forM fun st => do
          let _ ← resolve st) =
      resolveAll resolve (ps.flatMap fun ph => ph.1 :: ph.2) := by
  intro ps
  induction ps with
  | nil => rfl
  | cons ph rest ih =>
    rw [List.forM_cons']
    simp only [forM_eq_resolveAll] at ih ⊢
    simp only [List.flatMap_cons, List.cons_append]
    cases h1 : resolve ph.1 with
    | error e =>
      simp only [resolveAll, h1]
      rfl
    | ok x =>
      simp only [resolveAll, h1, resolveAll_append]
      cases h2 : resolveAll resolve ph.2 with
      | error e => rfl
      | ok u => exact ih

/-- The ending loop of `assert_files_exists` resolves, per ending, its
image then its audio, in order. -/
theorem endings_forM_eq (resolve : String → Except PyErr String) :
    ∀ es : List (String × String),
      (es.forM fun e => do
        let _ ← resolve e.1
        let _ ← resolve e.2) =
      resolveAll resolve (es.flatMap fun e => [e.1, e.2]) := by
  intro es
  induction es with
  | nil => rfl
  | cons e rest ih =>
    rw [List.forM_cons']
    simp only [List.flatMap_cons, List.cons_append]
    cases h1 : resolve e.1 with
    | error er =>
      simp only [resolveAll, h1]
      rfl
    | ok x =>
      simp only [resolveAll, h1]
      cases h2 : resolve e.2 with
      | error er =>
        simp only [resolveAll, h2]
        rfl
      | ok y =>
        simp only [resolveAll, h2]
        exact ih

/-- The check `assert_files_exists` is the sequential resolution of the flattened
reference list, in traversal order. -/
theorem assert_files_exists_eq (resolve : String → Except PyErr String)
    (c : SpecConfig) :
    assert_files_exists resolve c = resolveAll resolve (refsList c) := by
  unfold assert_files_exists refsList
  simp only [phases_forM_eq, endings_forM_eq]
  simp only [forM_eq_resolveAll]
  rw [resolveAll_append, resolveAll_append, resolveAll_append]
  cases hp : resolveAll resolve (c.phases.flatMap fun ph => ph.1 :: ph.2) with
  | error e => rfl
  | ok u =>
    cases he : resolveAll resolve (c.endings.flatMap fun e => [e.1, e.2]) with
    | error e2 => rfl
    | ok u2 =>
      cases hs : resolveAll resolve c.sfx with
      | error e3 => rfl
      | ok u3 =>
        cases hf : resolve c.font with
        | error e4 =>
          simp only [resolveAll, hf]
          rfl
        | ok x =>
          simp only [resolveAll, hf]
          rfl

/-- Sequential resolution fails with exactly the first failing
reference's error. -/
theorem resolveAll_spec (resolve : String → Except PyErr String) :
    ∀ rs : List String,
      resolveAll resolve rs =
        (match rs.findSome? (fun r =>
            match resolve r with
            | .error e => some e
            | .ok _ => none) with
         | some e => Except.error e
         | none => Except.ok ()) := by
  intro rs
  induction rs with
  | nil => rfl
  | cons r rest ih =>
    rw [List.findSome?_cons]
    simp only [resolveAll]
    cases hr : resolve r with
    | error e => rfl
    | ok x => exact ih

/-- C8, amended: the naming-policy check and the per-directory
duplicate-basename check collect every violation they will report before
raising; but the referential-integrity check raises at the *first*
unresolvable reference (collecting nothing further), and the
clashing-basename scan raises at the *first* offending top-level
directory, never examining the rest. -/
theorem c8_validator_collection (resolve : String → Except PyErr String)
    (c : SpecConfig) (files : List String) (dirs : List (List String)) :
    assert_valid_names files = (files.filter invalidName, files.any invalidName) ∧
    assert_no_duplicates files = (lateDups files, !(lateDups files).isEmpty) ∧
    assert_files_exists resolve c =
      (match firstRefError resolve c with
       | some e => .error e
       | none => .ok ()) ∧
    assert_non_clashing dirs =
      (match dirs.find? (fun d => (assert_no_duplicates d).2) with
       | some d => .error (assert_no_duplicates d).1
       | none => .ok ()) := by
  refine ⟨assert_valid_names_spec files, assert_no_duplicates_spec files, ?_,
    assert_non_clashing_spec dirs⟩
  rw [assert_files_exists_eq, resolveAll_spec]
  rfl

/-- C8, counterexample: exhaustive collection fails for the referential
check and for the directory scan.  On a configuration whose two phase
images are both unresolvable, `assert_files_exists` raises carrying only
the first reference's error — the same outcome as when only the first is
unresolvable, so the second violation is never reported; and the
directory scan over two clashing directories reports only the first
directory's clash. -/
theorem c8_validator_counterexample :
    assert_files_exists (fun s => .error (.fileNotFound s))
        ⟨[("img_a", []), ("img_b", [])], [], [], "font.ttf"⟩ =
      .error (.fileNotFound "img_a") ∧
    assert_files_exists (fun s => if s = "img_a" then .error (.fileNotFound s) else .ok s)
        ⟨[("img_a", []), ("img_b", [])], [], [], "font.ttf"⟩ =
      .error (.fileNotFound "img_a") ∧
    assert_non_clashing [["x/a.png", "y/a.png"], ["u/b.png", "v/b.png"]] =
      .error ["y/a.png"] := by
  refine ⟨?_, ?_, ?_⟩ <;> decide

end Phusic
